import Mathlib

/-!
# Verification of the k8s-autoapply-operator rolling-restart reconciler

Shallow embedding of `internal/controller/configmap_controller.go`:
the reference matcher (`podUsesConfigMap`), the disruption admission
controller (`canDeletePod`, `getIntOrPercentValue`), the batch scheduler
(`rollingRestart`, `restartBatch`, `waitForPodsHealthy`), the health
oracle (`checkOwnerPodsHealthy`, `isPodReady`), the candidate enumeration
(`findPodsUsingConfigMap`, `isPodExcluded`) and the change detector
(the version-tracking prologue of `Reconcile`).

Go slices become `List`, nil-able pointers become `Option`, `int32`
status fields become `Int` (no overflow is reachable for the modelled
quantities), and the cluster API is modelled by explicit parameters:
the pod list visible at poll tick `t` is `clusterAt t`, the success of
an individual delete call is `deleteOk pod`, and each compiled exclusion
regular expression is an opaque-to-us string predicate `String → Bool`.
Side effects of the batch scheduler are recorded as an explicit event
trace (`Event`): one `deleteCall` per issued deletion, one `settleWait`
for the fixed sleep between batches, one `healthPoll` per iteration of
the health-polling loop.
-/

/-- One owner reference of a pod (`metav1.OwnerReference`): owner UID and
the nil-able `Controller` flag. -/
structure OwnerReference where
  uid : String
  controller : Option Bool
  deriving DecidableEq, Repr

/-- A pod status condition (`corev1.PodCondition`), e.g. type `"Ready"`
with status `"True"`. -/
structure PodCondition where
  condType : String
  status : String
  deriving DecidableEq, Repr

/-- `corev1.PodPhase`. -/
inductive PodPhase where
  | pending | running | succeeded | failed | unknown
  deriving DecidableEq, Repr

/-- `corev1.ConfigMapVolumeSource`: only the name matters here. -/
structure ConfigMapVolumeSource where
  name : String
  deriving DecidableEq, Repr

/-- One source of a projected volume (`corev1.VolumeProjection`). -/
structure VolumeProjection where
  configMap : Option ConfigMapVolumeSource
  deriving DecidableEq, Repr

/-- `corev1.ProjectedVolumeSource`. -/
structure ProjectedVolumeSource where
  sources : List VolumeProjection
  deriving DecidableEq, Repr

/-- A pod volume (`corev1.Volume`), restricted to the two source kinds the
controller inspects. -/
structure Volume where
  configMap : Option ConfigMapVolumeSource
  projected : Option ProjectedVolumeSource
  deriving DecidableEq, Repr

/-- `corev1.ConfigMapEnvSource` inside an `EnvFromSource`. -/
structure ConfigMapEnvSource where
  name : String
  deriving DecidableEq, Repr

/-- `corev1.EnvFromSource`. -/
structure EnvFromSource where
  configMapRef : Option ConfigMapEnvSource
  deriving DecidableEq, Repr

/-- `corev1.ConfigMapKeySelector`. -/
structure ConfigMapKeySelector where
  name : String
  deriving DecidableEq, Repr

/-- `corev1.EnvVarSource`. -/
structure EnvVarSource where
  configMapKeyRef : Option ConfigMapKeySelector
  deriving DecidableEq, Repr

/-- `corev1.EnvVar`, keeping only the `ValueFrom` field the controller
inspects. -/
structure EnvVar where
  valueFrom : Option EnvVarSource
  deriving DecidableEq, Repr

/-- `corev1.Container`, keeping the `EnvFrom` and `Env` fields the
controller inspects. -/
structure Container where
  envFrom : List EnvFromSource
  env : List EnvVar
  deriving DecidableEq, Repr

/-- A workload unit (`corev1.Pod`). `nspace` is the pod's namespace
(`namespace` is a Lean keyword); `hasDeletionTimestamp` models
`DeletionTimestamp != nil`. -/
structure Pod where
  name : String
  nspace : String
  labels : List (String × String)
  ownerReferences : List OwnerReference
  phase : PodPhase
  conditions : List PodCondition
  hasDeletionTimestamp : Bool
  volumes : List Volume
  containers : List Container
  initContainers : List Container
  deriving DecidableEq, Repr

/-- `intstr.IntOrString`: an absolute count or a percentage (the percent
literal of a stored budget is a non-negative number). -/
inductive IntOrString where
  | int (n : Int)
  | percent (p : Nat)
  deriving DecidableEq, Repr

/-- A `policyv1.PodDisruptionBudget`, reduced to the fields `canDeletePod`
reads: the nil-able label selector (its `matchLabels`), and the status
counters `DisruptionsAllowed`, `CurrentHealthy`, `ExpectedPods`, plus the
nil-able `Spec.MinAvailable`. -/
structure PDB where
  selector : Option (List (String × String))
  disruptionsAllowed : Int
  currentHealthy : Int
  expectedPods : Nat
  minAvailable : Option IntOrString
  deriving DecidableEq, Repr

/-! ## Reference Matcher (`podUsesConfigMap`, source lines 369-418) -/

/-- The volume checks of `podUsesConfigMap`: a plain configMap volume
naming the source, or a projected volume with a configMap source naming
it. -/
def volumeUsesConfigMap (vol : Volume) (configMapName : String) : Bool :=
  (match vol.configMap with
   | some cm => cm.name == configMapName
   | none => false) ||
  (match vol.projected with
   | some proj => proj.sources.any (fun src =>
      match src.configMap with
      | some cm => cm.name == configMapName
      | none => false)
   | none => false)

/-- The per-container checks of `podUsesConfigMap` (identical for regular
and init containers in the source): `envFrom` bulk import, or an
individual `env` entry valued from a key of the source. -/
def containerUsesConfigMap (c : Container) (configMapName : String) : Bool :=
  c.envFrom.any (fun ef =>
    match ef.configMapRef with
    | some r => r.name == configMapName
    | none => false) ||
  c.env.any (fun e =>
    match e.valueFrom with
    | some vf =>
      match vf.configMapKeyRef with
      | some r => r.name == configMapName
      | none => false
    | none => false)

/-- `podUsesConfigMap` (source lines 369-418): volumes, then containers,
then init containers. -/
def podUsesConfigMap (pod : Pod) (configMapName : String) : Bool :=
  pod.volumes.any (fun v => volumeUsesConfigMap v configMapName) ||
  pod.containers.any (fun c => containerUsesConfigMap c configMapName) ||
  pod.initContainers.any (fun c => containerUsesConfigMap c configMapName)

/-! ## Disruption Admission Controller (`canDeletePod`, source lines 214-258,
and `getIntOrPercentValue`, lines 359-366) -/

/-- `labels.Set(pod.Labels)` matched against a selector's `matchLabels`:
every required key maps to the required value. -/
def selectorMatches (sel : List (String × String)) (podLabels : List (String × String)) : Bool :=
  sel.all (fun kv => podLabels.lookup kv.1 == some kv.2)

/-- Whether a budget's selector selects the pod: a nil selector is skipped
by the source loop, i.e. selects nothing. -/
def pdbSelectsPod (pdb : PDB) (pod : Pod) : Bool :=
  match pdb.selector with
  | none => false
  | some sel => selectorMatches sel pod.labels

/-- `getIntOrPercentValue` (source lines 359-366): an `Int` value is used
as-is; a percentage is scaled against `total` with
`GetScaledValueFromIntOrPercent(val, total, true)`, i.e. rounded up:
`ceil(p * total / 100) = (p * total + 99) / 100` on naturals. -/
def getIntOrPercentValue (val : IntOrString) (total : Nat) : Int :=
  match val with
  | .int n => n
  | .percent p => Int.ofNat ((p * total + 99) / 100)

/-- `canDeletePod` (source lines 214-258), the per-budget loop translated
to recursion: skip a nil selector, skip a non-matching selector; deny when
`DisruptionsAllowed <= 0`; else when `MinAvailable` is set deny when
`CurrentHealthy - 1 < minAvailable`; otherwise continue with the
remaining budgets, and admit when the loop ends. -/
def canDeletePod (pod : Pod) (pdbs : List PDB) : Bool :=
  match pdbs with
  | [] => true
  | pdb :: rest =>
    match pdb.selector with
    | none => canDeletePod pod rest
    | some sel =>
      if !selectorMatches sel pod.labels then canDeletePod pod rest
      else if pdb.disruptionsAllowed ≤ 0 then false
      else
        match pdb.minAvailable with
        | some v =>
          if pdb.currentHealthy - 1 < getIntOrPercentValue v pdb.expectedPods then false
          else canDeletePod pod rest
        | none => canDeletePod pod rest

/-- The per-budget admission decision implicit in the body of the
`canDeletePod` loop, for a budget that selects the pod: admitted iff
`DisruptionsAllowed > 0` and the `MinAvailable` check (when set) passes. -/
def budgetAdmits (pdb : PDB) : Bool :=
  if pdb.disruptionsAllowed ≤ 0 then false
  else
    match pdb.minAvailable with
    | some v =>
      if pdb.currentHealthy - 1 < getIntOrPercentValue v pdb.expectedPods then false
      else true
    | none => true

/-! ## Candidate enumeration (`findPodsUsingConfigMap`, source lines
111-145, and `isPodExcluded`, lines 440-447) -/

/-- `isPodExcluded` (source lines 440-447): the pod name matches any of
the compiled exclusion patterns (each compiled regexp is modelled as a
string predicate). -/
def isPodExcluded (podName : String) (patterns : List (String → Bool)) : Bool :=
  patterns.any (fun re => re podName)

/-- `findPodsUsingConfigMap` (source lines 111-145). The
`client.InNamespace(configMap.Namespace)` list call is the filter on
`nspace`; then completed/failed pods, pods being deleted, and excluded
pods are skipped, and the rest are kept iff they use the ConfigMap. -/
def findPodsUsingConfigMap (cluster : List Pod) (cmNamespace cmName : String)
    (excludePatterns : List (String → Bool)) : List Pod :=
  (cluster.filter (fun p => p.nspace == cmNamespace)).filter (fun pod =>
    !(pod.phase == PodPhase.succeeded || pod.phase == PodPhase.failed) &&
    !pod.hasDeletionTimestamp &&
    !isPodExcluded pod.name excludePatterns &&
    podUsesConfigMap pod cmName)

/-! ## Health Oracle (`isPodReady` lines 337-347, `checkOwnerPodsHealthy`
lines 300-334, and the all-pods check inside `waitForPodsHealthy`) -/

/-- `isPodReady` (source lines 337-347): phase `Running` and a `Ready`
condition with status `True`. -/
def isPodReady (pod : Pod) : Bool :=
  pod.phase == PodPhase.running &&
  pod.conditions.any (fun c => c.condType == "Ready" && c.status == "True")

/-- The owner-reference scan at the top of `checkOwnerPodsHealthy`
(source lines 302-308): the first owner reference whose `Controller`
flag is non-nil and true. -/
def findControllerOwner (pod : Pod) : Option OwnerReference :=
  pod.ownerReferences.find? (fun r => r.controller == some true)

/-- `checkOwnerPodsHealthy` (source lines 300-334): a pod with no
controller owner is trivially healthy; otherwise some pod of the same
namespace (the `InNamespace` list call) sharing the owner's UID must be
ready. -/
def checkOwnerPodsHealthy (cluster : List Pod) (oldPod : Pod) : Bool :=
  match findControllerOwner oldPod with
  | none => true
  | some ownerRef =>
    (cluster.filter (fun p => p.nspace == oldPod.nspace)).any (fun p =>
      p.ownerReferences.any (fun r => r.uid == ownerRef.uid) && isPodReady p)

/-- The `allHealthy` computation of one polling iteration of
`waitForPodsHealthy` (source lines 272-286): every deleted pod's
replacement obligation is satisfied. -/
def allReplacementsHealthy (cluster : List Pod) (deletedPods : List Pod) : Bool :=
  deletedPods.all (fun p => checkOwnerPodsHealthy cluster p)

/-! ## Batch Scheduler (`rollingRestart` lines 148-188, `restartBatch`
lines 191-211, `waitForPodsHealthy` lines 261-297) -/

/-- An observable side effect of a restart campaign: a pod delete call,
the fixed settle sleep before health polling (`time.Sleep(batchWaitDuration)`),
or one iteration of the health-polling loop. -/
inductive Event where
  | deleteCall (pod : Pod)
  | settleWait
  | healthPoll
  deriving DecidableEq, Repr

/-- The first-batch slice of `rollingRestart` (source lines 156-157):
`midpoint = (len + 1) / 2` rounds up. -/
def firstBatch (pods : List Pod) : List Pod :=
  pods.take ((pods.length + 1) / 2)

/-- The second-batch slice of `rollingRestart` (source line 158). -/
def secondBatch (pods : List Pod) : List Pod :=
  pods.drop ((pods.length + 1) / 2)

/-- `restartBatch` (source lines 191-211): for each pod, skip it when
`canDeletePod` denies; otherwise issue the delete call, and count the pod
as restarted only when the call succeeds (`deleteOk pod`). Returns the
restarted pods and the trace of issued delete calls. -/
def restartBatch (deleteOk : Pod → Bool) (pods : List Pod) (pdbs : List PDB) :
    List Pod × List Event :=
  match pods with
  | [] => ([], [])
  | pod :: rest =>
    let tail := restartBatch deleteOk rest pdbs
    if canDeletePod pod pdbs then
      if deleteOk pod then (pod :: tail.1, Event.deleteCall pod :: tail.2)
      else (tail.1, Event.deleteCall pod :: tail.2)
    else tail

/-- The deadline loop of `waitForPodsHealthy` (source lines 272-294):
`fuel` is the number of poll iterations the deadline admits, `t` the
current tick; each iteration checks `allReplacementsHealthy` against the
cluster state at that tick and emits one `healthPoll`. When the deadline
elapses the timeout error of source line 296 is returned. -/
def waitLoop (clusterAt : Nat → List Pod) (deletedPods : List Pod) :
    Nat → Nat → Except String Unit × List Event
  | 0, _ => (Except.error "timeout waiting for pods to become healthy", [])
  | fuel + 1, t =>
    if allReplacementsHealthy (clusterAt t) deletedPods then
      (Except.ok (), [Event.healthPoll])
    else
      let rest := waitLoop clusterAt deletedPods fuel (t + 1)
      (rest.1, Event.healthPoll :: rest.2)

/-- `waitForPodsHealthy` (source lines 261-297): immediately nil for an
empty deleted list, else the deadline loop. -/
def waitForPodsHealthy (clusterAt : Nat → List Pod) (fuel : Nat)
    (deletedPods : List Pod) : Except String Unit × List Event :=
  if deletedPods.isEmpty then (Except.ok (), [])
  else waitLoop clusterAt deletedPods fuel 0

/-- `rollingRestart` (source lines 148-188): split into the two batches,
restart the first, end in `Done` (nil) when nothing was actually
restarted or when there is no second batch; otherwise emit the settle
wait, poll for health of the actually-restarted pods, abort with the
wrapped error on timeout, and on success restart the second batch. -/
def rollingRestart (deleteOk : Pod → Bool) (clusterAt : Nat → List Pod)
    (fuel : Nat) (pods : List Pod) (pdbs : List PDB) :
    Except String Unit × List Event :=
  if pods.isEmpty then (Except.ok (), [])
  else
    let fb := restartBatch deleteOk (firstBatch pods) pdbs
    if fb.1.isEmpty then (Except.ok (), fb.2)
    else if (secondBatch pods).isEmpty then (Except.ok (), fb.2)
    else
      let w := waitForPodsHealthy clusterAt fuel fb.1
      match w.1 with
      | Except.error e =>
        (Except.error ("first batch unhealthy: " ++ e),
         fb.2 ++ Event.settleWait :: w.2)
      | Except.ok _ =>
        let sb := restartBatch deleteOk (secondBatch pods) pdbs
        (Except.ok (), fb.2 ++ Event.settleWait :: (w.2 ++ sb.2))

/-! ## Effective policy and the unsafe-mode (yolo) dispatch -/

/-- The policy fields of one `AutoApplyConfig` object
(`AutoApplyConfigSpec`): exclusion patterns, excluded namespaces, and the
yolo-mode flag exercised by `TestReconcile_YoloMode` / `TestLoadConfig`. -/
structure AutoApplyConfigSpec where
  excludePods : List String
  excludeNamespaces : List String
  yoloMode : Bool
  deriving DecidableEq, Repr

/-- Modelled from the spec: the effective policy's unsafe-mode flag. The
type declaration of `AutoApplyConfigSpec` and the `loadConfig` merge that
reads its `yoloMode` field are absent from the source tree available here
(only the tests reference them); per §4.3 of the spec the flag "is a
logical OR across all objects", which is also what `TestLoadConfig`
asserts ("any config enabling it"). -/
def effectiveYoloMode (configs : List AutoApplyConfigSpec) : Bool :=
  configs.any (fun cfg => cfg.yoloMode)

/-- Modelled from the spec: the unsafe-mode dispatch of the restart
campaign, absent from the reconciler source file available here (its
tests exercise `YoloMode`). Per §4.6 step 8 of the spec, unsafe mode
"bypasses steps 1, 4-6 entirely: all eligible units are treated as a
single batch and removed in one pass, each still individually subject to
the Admission Controller"; the one-pass removal is the source's
`restartBatch` applied to the whole eligible list. Safe mode is the
source's `rollingRestart`. -/
def restartCampaign (yoloMode : Bool) (deleteOk : Pod → Bool)
    (clusterAt : Nat → List Pod) (fuel : Nat) (pods : List Pod)
    (pdbs : List PDB) : Except String Unit × List Event :=
  if yoloMode then
    let b := restartBatch deleteOk pods pdbs
    (Except.ok (), b.2)
  else rollingRestart deleteOk clusterAt fuel pods pdbs

/-! ## Change Detector (version-tracking prologue of `Reconcile`,
source lines 46-71) -/

/-- The outcome of one `Reconcile` event with respect to the version
tracker: only `changed` proceeds to launch a restart campaign (source
line 73 onward); the other three return without touching any pod. -/
inductive ObserveOutcome where
  | notFoundCleanup | firstSeen | unchanged | changed
  deriving DecidableEq, Repr

/-- The `configMapVersions` store (`sync.Map`), single-threaded view:
an association list from request key to last seen `ResourceVersion`. -/
def VersionStore := List (String × String)

/-- `sync.Map.Load`. -/
def storeLoad (s : VersionStore) (k : String) : Option String :=
  List.lookup k s

/-- `sync.Map.Store`: overwrite any previous binding of `k`. -/
def storeSet (s : VersionStore) (k v : String) : VersionStore :=
  (k, v) :: List.filter (fun kv => !(kv.1 == k)) s

/-- `sync.Map.Delete`. -/
def storeErase (s : VersionStore) (k : String) : VersionStore :=
  List.filter (fun kv => !(kv.1 == k)) s

/-- The version-tracking prologue of `Reconcile` (source lines 46-71).
`fetched` is the result of the `Get` call: `none` means the ConfigMap was
deleted, so its tracking entry is removed and the event ignored. On a
fetch the stored version is read and then unconditionally replaced by the
current one (source lines 59-60) before the outcome is decided: first
sighting and unchanged version launch nothing; a differing version yields
`changed`, launching the campaign against the already-updated store. -/
def reconcileObserve (store : VersionStore) (key : String)
    (fetched : Option String) : VersionStore × ObserveOutcome :=
  match fetched with
  | none => (storeErase store key, ObserveOutcome.notFoundCleanup)
  | some v =>
    let last := storeLoad store key
    let store' := storeSet store key v
    match last with
    | none => (store', ObserveOutcome.firstSeen)
    | some old =>
      if old == v then (store', ObserveOutcome.unchanged)
      else (store', ObserveOutcome.changed)

/-! ## Helper lemmas -/

/-- A minimal pod for concrete instantiations. -/
def mkPod (name nspace : String) : Pod :=
  { name := name, nspace := nspace, labels := [], ownerReferences := [],
    phase := PodPhase.running, conditions := [], hasDeletionTimestamp := false,
    volumes := [], containers := [], initContainers := [] }

theorem restartBatch_events_eq (deleteOk : Pod → Bool) (pods : List Pod)
    (pdbs : List PDB) :
    (restartBatch deleteOk pods pdbs).2 =
      (pods.filter (fun p => canDeletePod p pdbs)).map Event.deleteCall := by
  induction pods with
  | nil => rfl
  | cons pod rest ih =>
    by_cases h : canDeletePod pod pdbs = true
    · by_cases hd : deleteOk pod = true <;>
        simp [restartBatch, h, hd, List.filter_cons, ih]
    · simp [restartBatch, h, List.filter_cons, ih]

theorem restartBatch_restarted_subset (deleteOk : Pod → Bool) (pods : List Pod)
    (pdbs : List PDB) :
    ∀ p ∈ (restartBatch deleteOk pods pdbs).1, p ∈ pods := by
  induction pods with
  | nil => intro p hp; simp [restartBatch] at hp
  | cons pod rest ih =>
    intro p hp
    by_cases h : canDeletePod pod pdbs = true
    · by_cases hd : deleteOk pod = true
      · simp [restartBatch, h, hd] at hp
        rcases hp with hp | hp
        · simp [hp]
        · exact List.mem_cons_of_mem _ (ih p hp)
      · simp [restartBatch, h, hd] at hp
        exact List.mem_cons_of_mem _ (ih p hp)
    · simp [restartBatch, h] at hp
      exact List.mem_cons_of_mem _ (ih p hp)

theorem mem_restartBatch_deleteCall (deleteOk : Pod → Bool) (pods : List Pod)
    (pdbs : List PDB) (p : Pod)
    (h : Event.deleteCall p ∈ (restartBatch deleteOk pods pdbs).2) : p ∈ pods := by
  rw [restartBatch_events_eq] at h
  rcases List.mem_map.mp h with ⟨q, hq, hqe⟩
  cases hqe
  exact List.mem_of_mem_filter hq


theorem canDeletePod_eq_all (pod : Pod) (pdbs : List PDB) :
    canDeletePod pod pdbs =
      pdbs.all (fun pdb => !(pdbSelectsPod pdb pod) || budgetAdmits pdb) := by
  induction pdbs with
  | nil => rfl
  | cons pdb rest ih =>
    cases hsel : pdb.selector with
    | none => simp [canDeletePod, pdbSelectsPod, hsel, ih]
    | some sel =>
      by_cases hm : selectorMatches sel pod.labels = true
      · by_cases ha : pdb.disruptionsAllowed ≤ 0
        · simp [canDeletePod, pdbSelectsPod, budgetAdmits, hsel, hm, ha]
        · cases hmin : pdb.minAvailable with
          | none =>
            simp [canDeletePod, pdbSelectsPod, budgetAdmits, hsel, hm, ha, hmin, ih]
          | some v =>
            by_cases hc :
                pdb.currentHealthy - 1 < getIntOrPercentValue v pdb.expectedPods
            · simp [canDeletePod, pdbSelectsPod, budgetAdmits, hsel, hm, ha, hmin, hc]
            · simp [canDeletePod, pdbSelectsPod, budgetAdmits, hsel, hm, ha, hmin,
                hc, ih]
      · rw [Bool.not_eq_true] at hm
        simp [canDeletePod, pdbSelectsPod, hsel, hm, ih]

/-! ## Claim theorems -/

/-- C1: for every non-empty eligible pod list of size `n`, the batch
scheduler's first batch has size `ceil(n/2)` (on naturals,
`(n + 1) / 2`, characterized by `n ≤ 2·s ≤ n + 1`), the second batch has
size `n - ceil(n/2)`, and the two batches partition the eligible list
exactly: their concatenation is the list, every pod occurs in the two
batches exactly as often as in the list, and (for a duplicate-free list)
no pod is in both. -/
theorem firstBatch_secondBatch_partition (pods : List Pod) (h : pods ≠ []) :
    (firstBatch pods).length = (pods.length + 1) / 2 ∧
    (pods.length ≤ 2 * (firstBatch pods).length ∧
      2 * (firstBatch pods).length ≤ pods.length + 1) ∧
    (secondBatch pods).length = pods.length - (pods.length + 1) / 2 ∧
    firstBatch pods ++ secondBatch pods = pods ∧
    (∀ p : Pod,
      (firstBatch pods).count p + (secondBatch pods).count p = pods.count p) ∧
    (pods.Nodup → ∀ p : Pod, ¬(p ∈ firstBatch pods ∧ p ∈ secondBatch pods)) := by
  have hlen : (firstBatch pods).length = (pods.length + 1) / 2 := by
    simp [firstBatch, List.length_take]
    omega
  refine ⟨hlen, by rw [hlen]; omega, by simp [secondBatch, List.length_drop],
    List.take_append_drop _ _, ?_, ?_⟩
  · intro p
    simp only [firstBatch, secondBatch]
    rw [← List.count_append, List.take_append_drop]
  · intro hnd p hp
    exact (List.disjoint_take_drop hnd le_rfl) hp.1 hp.2

theorem firstBatch_secondBatch_partition_witness :
    ([mkPod "a" "ns", mkPod "b" "ns", mkPod "c" "ns"] ≠ ([] : List Pod)) ∧
    (firstBatch [mkPod "a" "ns", mkPod "b" "ns", mkPod "c" "ns"]).length = 2 := by
  have h := firstBatch_secondBatch_partition
    [mkPod "a" "ns", mkPod "b" "ns", mkPod "c" "ns"] (by decide)
  exact ⟨by decide, by rw [h.1]; decide⟩

/-- C3: `canDeletePod` denies whenever any budget selecting the pod's
labels has `DisruptionsAllowed ≤ 0` (regardless of `MinAvailable`, which
`budgetAdmits` only consults when `DisruptionsAllowed > 0`); it admits
when the budget list is empty or when no budget selects the pod; and in
general it admits exactly when every selecting budget individually
admits, so a single deny wins. -/
theorem canDeletePod_admission (pod : Pod) (pdbs : List PDB) :
    (∀ pdb ∈ pdbs, pdbSelectsPod pdb pod = true → pdb.disruptionsAllowed ≤ 0 →
      canDeletePod pod pdbs = false) ∧
    (pdbs = [] → canDeletePod pod pdbs = true) ∧
    ((∀ pdb ∈ pdbs, pdbSelectsPod pdb pod = false) →
      canDeletePod pod pdbs = true) ∧
    (canDeletePod pod pdbs = true ↔
      ∀ pdb ∈ pdbs, pdbSelectsPod pdb pod = true → budgetAdmits pdb = true) := by
  have hall : canDeletePod pod pdbs = true ↔
      ∀ pdb ∈ pdbs, pdbSelectsPod pdb pod = true → budgetAdmits pdb = true := by
    rw [canDeletePod_eq_all, List.all_eq_true]
    constructor
    · intro h pdb hm hsel
      have h2 := h pdb hm
      simp [hsel] at h2
      exact h2
    · intro h pdb hm
      by_cases hsel : pdbSelectsPod pdb pod = true
      · simp [hsel, h pdb hm hsel]
      · rw [Bool.not_eq_true] at hsel
        simp [hsel]
  refine ⟨?_, ?_, ?_, hall⟩
  · intro pdb hm hsel hda
    rw [Bool.eq_false_iff]
    intro hadm
    have h2 := hall.mp hadm pdb hm hsel
    simp [budgetAdmits, hda] at h2
  · intro h
    subst h
    rfl
  · intro h
    exact hall.mpr (fun pdb hm hs => absurd hs (by simp [h pdb hm]))

theorem canDeletePod_admission_witness :
    canDeletePod
      { mkPod "w" "ns" with labels := [("app", "web")] }
      [{ selector := some [("app", "web")], disruptionsAllowed := 0,
         currentHealthy := 5, expectedPods := 5, minAvailable := none }] = false ∧
    canDeletePod { mkPod "w" "ns" with labels := [("app", "web")] } [] = true := by
  constructor
  · exact (canDeletePod_admission _ _).1 _ (List.mem_singleton.mpr rfl)
      (by decide) (by decide)
  · exact (canDeletePod_admission _ _).2.1 rfl

/-- C4: for a budget that selects the pod, has `DisruptionsAllowed > 0`
and `MinAvailable` set, `canDeletePod` denies exactly when
`CurrentHealthy - 1 < minAvailable`, where an absolute threshold is used
as-is and a percentage threshold is resolved against the budget's
`ExpectedPods` as `(p * total + 99) / 100`, the round-up (ceiling)
convention: the second conjunct characterizes `m = (x + 99) / 100` as the
least `m` with `x ≤ 100 * m`, i.e. `⌈x / 100⌉`. -/
theorem canDeletePod_minAvailable_rule (pod : Pod) (pdb : PDB)
    (hmatch : pdbSelectsPod pdb pod = true)
    (hallowed : 0 < pdb.disruptionsAllowed)
    (v : IntOrString) (hmin : pdb.minAvailable = some v) :
    (canDeletePod pod [pdb] = false ↔
      pdb.currentHealthy - 1 <
        (match v with
         | IntOrString.int n => n
         | IntOrString.percent p =>
            Int.ofNat ((p * pdb.expectedPods + 99) / 100))) ∧
    (∀ x : Nat, x ≤ 100 * ((x + 99) / 100) ∧
      100 * ((x + 99) / 100) < x + 100) := by
  constructor
  · have hval : getIntOrPercentValue v pdb.expectedPods =
        (match v with
         | IntOrString.int n => n
         | IntOrString.percent p =>
            Int.ofNat ((p * pdb.expectedPods + 99) / 100)) := by
      cases v <;> rfl
    rw [← hval]
    cases hsel : pdb.selector with
    | none =>
      rw [pdbSelectsPod, hsel] at hmatch
      cases hmatch
    | some sel =>
      have hm : selectorMatches sel pod.labels = true := by
        rw [pdbSelectsPod, hsel] at hmatch
        exact hmatch
      have hna : ¬(pdb.disruptionsAllowed ≤ 0) := not_le.mpr hallowed
      by_cases hc :
          pdb.currentHealthy - 1 < getIntOrPercentValue v pdb.expectedPods <;>
        simp [canDeletePod, hsel, hm, hna, hmin, hc]
  · intro x
    omega

theorem canDeletePod_minAvailable_rule_witness :
    canDeletePod
      { mkPod "w" "ns" with labels := [("app", "web")] }
      [{ selector := some [("app", "web")], disruptionsAllowed := 1,
         currentHealthy := 2, expectedPods := 4,
         minAvailable := some (IntOrString.percent 50) }] = false := by
  exact (canDeletePod_minAvailable_rule _ _ (by decide) (by decide) _ rfl).1.mpr
    (by decide)


theorem waitLoop_events_healthPoll (clusterAt : Nat → List Pod)
    (deletedPods : List Pod) :
    ∀ fuel t, ∀ e ∈ (waitLoop clusterAt deletedPods fuel t).2,
      e = Event.healthPoll := by
  intro fuel
  induction fuel with
  | zero => intro t e he; simp [waitLoop] at he
  | succ n ih =>
    intro t e he
    by_cases h : allReplacementsHealthy (clusterAt t) deletedPods = true
    · simp [waitLoop, h] at he
      exact he
    · rw [Bool.not_eq_true] at h
      simp [waitLoop, h] at he
      rcases he with he | he
      · exact he
      · exact ih (t + 1) e he

theorem waitLoop_timeout (clusterAt : Nat → List Pod) (deletedPods : List Pod)
    (h : ∀ t, allReplacementsHealthy (clusterAt t) deletedPods = false) :
    ∀ fuel t, (waitLoop clusterAt deletedPods fuel t).1 =
      Except.error "timeout waiting for pods to become healthy" := by
  intro fuel
  induction fuel with
  | zero => intro t; rfl
  | succ n ih =>
    intro t
    simp [waitLoop, h t]
    exact ih (t + 1)

/-- C2: when the effective policy's unsafe-mode (yolo) flag is true — the
logical OR `effectiveYoloMode` across all policy objects — the campaign
removes the whole eligible list in one `restartBatch` pass: the trace is
exactly one delete call per eligible pod that `canDeletePod` admits, in
list order; no settle wait and no health poll occurs; and every issued
delete call targets an eligible pod that passed the admission check. -/
theorem yolo_single_batch (configs : List AutoApplyConfigSpec)
    (deleteOk : Pod → Bool) (clusterAt : Nat → List Pod) (fuel : Nat)
    (pods : List Pod) (pdbs : List PDB)
    (hyolo : effectiveYoloMode configs = true) :
    restartCampaign (effectiveYoloMode configs) deleteOk clusterAt fuel pods pdbs =
      (Except.ok (),
        (pods.filter (fun p => canDeletePod p pdbs)).map Event.deleteCall) ∧
    Event.settleWait ∉
      (restartCampaign (effectiveYoloMode configs) deleteOk clusterAt fuel pods
        pdbs).2 ∧
    Event.healthPoll ∉
      (restartCampaign (effectiveYoloMode configs) deleteOk clusterAt fuel pods
        pdbs).2 ∧
    ∀ p : Pod,
      Event.deleteCall p ∈
        (restartCampaign (effectiveYoloMode configs) deleteOk clusterAt fuel pods
          pdbs).2 →
      canDeletePod p pdbs = true ∧ p ∈ pods := by
  have hres : restartCampaign (effectiveYoloMode configs) deleteOk clusterAt fuel
      pods pdbs =
      (Except.ok (),
        (pods.filter (fun p => canDeletePod p pdbs)).map Event.deleteCall) := by
    simp [restartCampaign, hyolo, restartBatch_events_eq]
  refine ⟨hres, ?_, ?_, ?_⟩
  · rw [hres]
    simp
  · rw [hres]
    simp
  · intro p hp
    rw [hres] at hp
    simp only [List.mem_map] at hp
    rcases hp with ⟨q, hq, hqe⟩
    cases hqe
    exact ⟨(List.mem_filter.mp hq).2, (List.mem_filter.mp hq).1⟩

theorem yolo_single_batch_witness :
    effectiveYoloMode [⟨[], [], true⟩] = true ∧
    restartCampaign (effectiveYoloMode [⟨[], [], true⟩]) (fun _ => true)
        (fun _ => []) 0 [mkPod "a" "ns"] [] =
      (Except.ok (), [Event.deleteCall (mkPod "a" "ns")]) := by
  have h := (yolo_single_batch [⟨[], [], true⟩] (fun _ => true) (fun _ => []) 0
    [mkPod "a" "ns"] [] rfl).1
  exact ⟨rfl, by rw [h]; rfl⟩

/-- C5: if zero pods are actually removed in batch one (every first-batch
pod was denied by a budget or its delete call failed), the campaign
returns nil (`Done`) immediately, its trace contains no settle wait and
no health poll, and no delete call is ever issued against any
second-batch pod. -/
theorem rollingRestart_zero_removed_done (deleteOk : Pod → Bool)
    (clusterAt : Nat → List Pod) (fuel : Nat) (pods : List Pod)
    (pdbs : List PDB) (hnodup : pods.Nodup)
    (hzero : (restartBatch deleteOk (firstBatch pods) pdbs).1 = []) :
    (rollingRestart deleteOk clusterAt fuel pods pdbs).1 = Except.ok () ∧
    Event.settleWait ∉ (rollingRestart deleteOk clusterAt fuel pods pdbs).2 ∧
    Event.healthPoll ∉ (rollingRestart deleteOk clusterAt fuel pods pdbs).2 ∧
    ∀ p ∈ secondBatch pods,
      Event.deleteCall p ∉ (rollingRestart deleteOk clusterAt fuel pods pdbs).2 := by
  by_cases hp : pods.isEmpty = true
  · have hres : rollingRestart deleteOk clusterAt fuel pods pdbs =
        (Except.ok (), []) := by simp [rollingRestart, hp]
    rw [hres]
    simp
  · rw [Bool.not_eq_true] at hp
    have hres : rollingRestart deleteOk clusterAt fuel pods pdbs =
        (Except.ok (), (restartBatch deleteOk (firstBatch pods) pdbs).2) := by
      simp [rollingRestart, hp, hzero]
    rw [hres]
    rw [restartBatch_events_eq]
    refine ⟨rfl, by simp, by simp, ?_⟩
    intro p hps hmem
    simp only [List.mem_map] at hmem
    rcases hmem with ⟨q, hq, hqe⟩
    cases hqe
    exact (List.disjoint_take_drop hnodup le_rfl)
      (List.mem_of_mem_filter hq) hps

theorem rollingRestart_zero_removed_done_witness :
    (rollingRestart (fun _ => false) (fun _ => []) 3
        [mkPod "a" "ns", mkPod "b" "ns"] []).1 = Except.ok () ∧
    Event.deleteCall (mkPod "b" "ns") ∉
      (rollingRestart (fun _ => false) (fun _ => []) 3
        [mkPod "a" "ns", mkPod "b" "ns"] []).2 := by
  have h := rollingRestart_zero_removed_done (fun _ => false) (fun _ => []) 3
    [mkPod "a" "ns", mkPod "b" "ns"] [] (by decide) (by decide)
  exact ⟨h.1, h.2.2.2 (mkPod "b" "ns") (by decide)⟩

/-- C6: if batch one actually removed some pods, a second batch exists,
and the replacements never become healthy at any poll tick (so the
deadline elapses), the campaign returns the wrapped timeout error to its
caller — not nil — and no delete call is issued against any second-batch
pod. -/
theorem rollingRestart_timeout_aborted (deleteOk : Pod → Bool)
    (clusterAt : Nat → List Pod) (fuel : Nat) (pods : List Pod)
    (pdbs : List PDB) (hnodup : pods.Nodup)
    (hz : (restartBatch deleteOk (firstBatch pods) pdbs).1 ≠ [])
    (hsecond : secondBatch pods ≠ [])
    (hnever : ∀ t, allReplacementsHealthy (clusterAt t)
        (restartBatch deleteOk (firstBatch pods) pdbs).1 = false) :
    (rollingRestart deleteOk clusterAt fuel pods pdbs).1 =
      Except.error "first batch unhealthy: timeout waiting for pods to become healthy" ∧
    ∀ p ∈ secondBatch pods,
      Event.deleteCall p ∉ (rollingRestart deleteOk clusterAt fuel pods pdbs).2 := by
  have hp : pods.isEmpty = false := by
    cases pods with
    | nil => exact absurd rfl hsecond
    | cons a l => rfl
  have hfb : (restartBatch deleteOk (firstBatch pods) pdbs).1.isEmpty = false := by
    cases hl : (restartBatch deleteOk (firstBatch pods) pdbs).1 with
    | nil => exact absurd hl hz
    | cons a l => rfl
  have hsb : (secondBatch pods).isEmpty = false := by
    cases hl : secondBatch pods with
    | nil => exact absurd hl hsecond
    | cons a l => rfl
  have hw : (waitForPodsHealthy clusterAt fuel
      (restartBatch deleteOk (firstBatch pods) pdbs).1).1 =
      Except.error "timeout waiting for pods to become healthy" := by
    rw [waitForPodsHealthy, if_neg (by simp [hfb])]
    exact waitLoop_timeout clusterAt _ hnever fuel 0
  have hres : rollingRestart deleteOk clusterAt fuel pods pdbs =
      (Except.error
          ("first batch unhealthy: " ++ "timeout waiting for pods to become healthy"),
        (restartBatch deleteOk (firstBatch pods) pdbs).2 ++
          Event.settleWait ::
            (waitForPodsHealthy clusterAt fuel
              (restartBatch deleteOk (firstBatch pods) pdbs).1).2) := by
    simp only [rollingRestart, hp, Bool.false_eq_true, if_false, hfb, hsb]
    rw [hw]
  rw [hres]
  refine ⟨rfl, ?_⟩
  intro p hps hmem
  simp only [List.mem_append, List.mem_cons] at hmem
  rcases hmem with hmem | hmem | hmem
  · exact (List.disjoint_take_drop hnodup le_rfl)
      (mem_restartBatch_deleteCall deleteOk (firstBatch pods) pdbs p hmem) hps
  · cases hmem
  · have := waitLoop_events_healthPoll clusterAt _ fuel 0 _ (by
      rw [waitForPodsHealthy, if_neg (by simp [hfb])] at hmem
      exact hmem)
    cases this


theorem rollingRestart_timeout_aborted_witness :
    (rollingRestart (fun _ => true) (fun _ => []) 2
        [{ mkPod "a" "ns" with ownerReferences := [⟨"uid-1", some true⟩] },
         mkPod "b" "ns"] []).1 =
      Except.error "first batch unhealthy: timeout waiting for pods to become healthy" ∧
    Event.deleteCall (mkPod "b" "ns") ∉
      (rollingRestart (fun _ => true) (fun _ => []) 2
        [{ mkPod "a" "ns" with ownerReferences := [⟨"uid-1", some true⟩] },
         mkPod "b" "ns"] []).2 := by
  have h := rollingRestart_timeout_aborted (fun _ => true) (fun _ => []) 2
    [{ mkPod "a" "ns" with ownerReferences := [⟨"uid-1", some true⟩] },
     mkPod "b" "ns"] [] (by decide) (by decide) (by decide) (fun t => rfl)
  exact ⟨h.1, h.2 (mkPod "b" "ns") (by decide)⟩

theorem cmVolMatch_iff (o : Option ConfigMapVolumeSource) (nm : String) :
    (match o with
     | some cm => cm.name == nm
     | none => false) = true ↔ ∃ cm, o = some cm ∧ cm.name = nm := by
  cases o <;> simp

theorem cmEnvMatch_iff (o : Option ConfigMapEnvSource) (nm : String) :
    (match o with
     | some r => r.name == nm
     | none => false) = true ↔ ∃ r, o = some r ∧ r.name = nm := by
  cases o <;> simp

theorem envVarMatch_iff (o : Option EnvVarSource) (nm : String) :
    (match o with
     | some vf =>
       match vf.configMapKeyRef with
       | some r => r.name == nm
       | none => false
     | none => false) = true ↔
      ∃ vf, o = some vf ∧ ∃ r, vf.configMapKeyRef = some r ∧ r.name = nm := by
  cases o with
  | none => simp
  | some vf => cases hr : vf.configMapKeyRef <;> simp [hr]

/-- C7: `podUsesConfigMap pod nm` is true exactly when one of the four
reference forms is present — a plain volume naming the source, a
projected-volume source naming it, an `envFrom` bulk import, or an
individual `env` entry valued from one of its keys — where the two
environment forms count across both regular and init containers; it is a
total Boolean function, so any pod with none of these (including absent
optional fields, modelled by `none`) yields `false`. -/
theorem podUsesConfigMap_iff (pod : Pod) (nm : String) :
    podUsesConfigMap pod nm = true ↔
      (∃ vol ∈ pod.volumes, ∃ cm, vol.configMap = some cm ∧ cm.name = nm) ∨
      (∃ vol ∈ pod.volumes, ∃ proj, vol.projected = some proj ∧
        ∃ src ∈ proj.sources, ∃ cm, src.configMap = some cm ∧ cm.name = nm) ∨
      (∃ c ∈ pod.containers ++ pod.initContainers, ∃ ef ∈ c.envFrom,
        ∃ r, ef.configMapRef = some r ∧ r.name = nm) ∨
      (∃ c ∈ pod.containers ++ pod.initContainers, ∃ e ∈ c.env,
        ∃ vf, e.valueFrom = some vf ∧
          ∃ r, vf.configMapKeyRef = some r ∧ r.name = nm) := by
  have hvol : ∀ vol : Volume, volumeUsesConfigMap vol nm = true ↔
      (∃ cm, vol.configMap = some cm ∧ cm.name = nm) ∨
      (∃ proj, vol.projected = some proj ∧
        ∃ src ∈ proj.sources, ∃ cm, src.configMap = some cm ∧ cm.name = nm) := by
    intro vol
    unfold volumeUsesConfigMap
    cases hp : vol.projected with
    | none => simp [cmVolMatch_iff, hp]
    | some proj => simp [cmVolMatch_iff, hp, List.any_eq_true]
  have hcont : ∀ c : Container, containerUsesConfigMap c nm = true ↔
      (∃ ef ∈ c.envFrom, ∃ r, ef.configMapRef = some r ∧ r.name = nm) ∨
      (∃ e ∈ c.env, ∃ vf, e.valueFrom = some vf ∧
        ∃ r, vf.configMapKeyRef = some r ∧ r.name = nm) := by
    intro c
    unfold containerUsesConfigMap
    simp [List.any_eq_true, cmEnvMatch_iff, envVarMatch_iff]
  unfold podUsesConfigMap
  simp only [Bool.or_eq_true, List.any_eq_true, hvol, hcont, List.mem_append,
    or_assoc]
  constructor
  · rintro (⟨vol, hv, h | h⟩ | ⟨c, hc, h | h⟩ | ⟨c, hc, h | h⟩)
    · exact Or.inl ⟨vol, hv, h⟩
    · exact Or.inr (Or.inl ⟨vol, hv, h⟩)
    · exact Or.inr (Or.inr (Or.inl ⟨c, Or.inl hc, h⟩))
    · exact Or.inr (Or.inr (Or.inr ⟨c, Or.inl hc, h⟩))
    · exact Or.inr (Or.inr (Or.inl ⟨c, Or.inr hc, h⟩))
    · exact Or.inr (Or.inr (Or.inr ⟨c, Or.inr hc, h⟩))
  · rintro (⟨vol, hv, h⟩ | ⟨vol, hv, h⟩ | ⟨c, hc | hc, h⟩ | ⟨c, hc | hc, h⟩)
    · exact Or.inl ⟨vol, hv, Or.inl h⟩
    · exact Or.inl ⟨vol, hv, Or.inr h⟩
    · exact Or.inr (Or.inl ⟨c, hc, Or.inl h⟩)
    · exact Or.inr (Or.inr ⟨c, hc, Or.inl h⟩)
    · exact Or.inr (Or.inl ⟨c, hc, Or.inr h⟩)
    · exact Or.inr (Or.inr ⟨c, hc, Or.inr h⟩)


theorem storeLoad_storeSet_self (s : VersionStore) (k v : String) :
    storeLoad (storeSet s k v) k = some v := by
  simp [storeLoad, storeSet, List.lookup]

theorem storeLoad_storeErase_self (s : VersionStore) (k : String) :
    storeLoad (storeErase s k) k = none := by
  induction s with
  | nil => rfl
  | cons kv rest ih =>
    by_cases h : kv.1 = k
    · simpa [storeErase, storeLoad, List.filter, h] using ih
    · have hne : (kv.1 == k) = false := beq_eq_false_iff_ne.mpr h
      have hne2 : (k == kv.1) = false := beq_eq_false_iff_ne.mpr (Ne.symm h)
      simpa [storeErase, storeLoad, List.filter, List.lookup, hne, hne2] using ih

/-- C8: the change detector of `Reconcile`. The first observation of a
key stores the version and yields `firstSeen` (no campaign); an
observation with a version differing from the stored one yields
`changed` — the only outcome that proceeds to a restart campaign — with
the store already holding the new version, so that re-observing the same
version afterwards yields `unchanged`; an observation equal to the
stored version yields `unchanged`; and a failed fetch erases the
tracking entry and yields `notFoundCleanup`. -/
theorem reconcileObserve_change_detector (store : VersionStore) (key : String) :
    (∀ v, storeLoad store key = none →
      reconcileObserve store key (some v) =
        (storeSet store key v, ObserveOutcome.firstSeen) ∧
      storeLoad (reconcileObserve store key (some v)).1 key = some v) ∧
    (∀ v old, storeLoad store key = some old → old ≠ v →
      (reconcileObserve store key (some v)).2 = ObserveOutcome.changed ∧
      storeLoad (reconcileObserve store key (some v)).1 key = some v ∧
      (reconcileObserve (reconcileObserve store key (some v)).1 key
        (some v)).2 = ObserveOutcome.unchanged) ∧
    (∀ v, storeLoad store key = some v →
      (reconcileObserve store key (some v)).2 = ObserveOutcome.unchanged) ∧
    (reconcileObserve store key none =
        (storeErase store key, ObserveOutcome.notFoundCleanup) ∧
      storeLoad (reconcileObserve store key none).1 key = none) := by
  refine ⟨?_, ?_, ?_, rfl, ?_⟩
  · intro v hnone
    constructor
    · simp [reconcileObserve, hnone]
    · simp [reconcileObserve, hnone, storeLoad_storeSet_self]
  · intro v old hold hne
    have hbe : (old == v) = false := beq_eq_false_iff_ne.mpr hne
    have h1 : reconcileObserve store key (some v) =
        (storeSet store key v, ObserveOutcome.changed) := by
      simp [reconcileObserve, hold, hbe]
    refine ⟨by rw [h1], by rw [h1]; exact storeLoad_storeSet_self store key v, ?_⟩
    rw [h1]
    simp [reconcileObserve, storeLoad_storeSet_self]
  · intro v hv
    simp [reconcileObserve, hv]
  · exact storeLoad_storeErase_self store key

theorem reconcileObserve_change_detector_witness :
    (reconcileObserve [("d/cm", "v1")] "d/cm" (some "v2")).2 =
      ObserveOutcome.changed ∧
    storeLoad (reconcileObserve [("d/cm", "v1")] "d/cm" (some "v2")).1 "d/cm" =
      some "v2" ∧
    (reconcileObserve [] "d/cm" (some "v1")).2 = ObserveOutcome.firstSeen := by
  have h := (reconcileObserve_change_detector [("d/cm", "v1")] "d/cm").2.1
    "v2" "v1" (by decide) (by decide)
  have h2 := ((reconcileObserve_change_detector [] "d/cm").1 "v1" rfl).1
  exact ⟨h.1, h.2.1, by rw [h2]⟩

/-- C9: the Health Oracle. A removed pod with no controlling owner
reference is counted healthy immediately; otherwise its obligation is
satisfied exactly when some pod of the same namespace carrying the same
owner UID is running and ready; satisfaction depends only on the owner
UID and namespace, so one ready sibling satisfies every removed pod that
shared that owner; and the overall per-iteration verdict is true exactly
when every removed pod's obligation is satisfied. -/
theorem healthOracle_spec (cluster : List Pod) :
    (∀ oldPod : Pod, findControllerOwner oldPod = none →
      checkOwnerPodsHealthy cluster oldPod = true) ∧
    (∀ (oldPod : Pod) (ref : OwnerReference),
      findControllerOwner oldPod = some ref →
      (checkOwnerPodsHealthy cluster oldPod = true ↔
        ∃ p ∈ cluster, p.nspace = oldPod.nspace ∧
          (∃ r ∈ p.ownerReferences, r.uid = ref.uid) ∧ isPodReady p = true)) ∧
    (∀ (p1 p2 : Pod) (r1 r2 : OwnerReference),
      findControllerOwner p1 = some r1 → findControllerOwner p2 = some r2 →
      r1.uid = r2.uid → p1.nspace = p2.nspace →
      checkOwnerPodsHealthy cluster p1 = checkOwnerPodsHealthy cluster p2) ∧
    (∀ removed : List Pod, allReplacementsHealthy cluster removed = true ↔
      ∀ p ∈ removed, checkOwnerPodsHealthy cluster p = true) := by
  refine ⟨?_, ?_, ?_, ?_⟩
  · intro oldPod h
    simp [checkOwnerPodsHealthy, h]
  · intro oldPod ref href
    simp only [checkOwnerPodsHealthy, href]
    simp only [List.any_eq_true, List.mem_filter, Bool.and_eq_true, beq_iff_eq,
      and_assoc]
  · intro p1 p2 r1 r2 h1 h2 huid hns
    simp only [checkOwnerPodsHealthy, h1, h2]
    rw [huid, hns]
  · intro removed
    rw [allReplacementsHealthy, List.all_eq_true]

theorem healthOracle_spec_witness :
    checkOwnerPodsHealthy [] (mkPod "a" "ns") = true ∧
    allReplacementsHealthy [] [mkPod "a" "ns"] = true := by
  refine ⟨(healthOracle_spec []).1 (mkPod "a" "ns") rfl, ?_⟩
  exact ((healthOracle_spec []).2.2.2 [mkPod "a" "ns"]).mpr
    (fun p hp => by
      rcases List.mem_singleton.mp hp with rfl
      exact (healthOracle_spec []).1 (mkPod "a" "ns") rfl)


theorem mem_rollingRestart_deleteCall (deleteOk : Pod → Bool)
    (clusterAt : Nat → List Pod) (fuel : Nat) (pods : List Pod)
    (pdbs : List PDB) (p : Pod)
    (h : Event.deleteCall p ∈ (rollingRestart deleteOk clusterAt fuel pods pdbs).2) :
    p ∈ pods := by
  by_cases hp : pods.isEmpty = true
  · simp [rollingRestart, hp] at h
  · rw [Bool.not_eq_true] at hp
    by_cases h1 : (restartBatch deleteOk (firstBatch pods) pdbs).1.isEmpty = true
    · simp only [rollingRestart, hp, Bool.false_eq_true, if_false, h1,
        if_true] at h
      exact List.mem_of_mem_take (mem_restartBatch_deleteCall _ _ _ _ h)
    · rw [Bool.not_eq_true] at h1
      by_cases h2 : (secondBatch pods).isEmpty = true
      · simp only [rollingRestart, hp, Bool.false_eq_true, if_false, h1, h2,
          if_true] at h
        exact List.mem_of_mem_take (mem_restartBatch_deleteCall _ _ _ _ h)
      · rw [Bool.not_eq_true] at h2
        cases hw : (waitForPodsHealthy clusterAt fuel
            (restartBatch deleteOk (firstBatch pods) pdbs).1).1 with
        | error e =>
          simp only [rollingRestart, hp, Bool.false_eq_true, if_false, h1, h2,
            hw, List.mem_append, List.mem_cons] at h
          rcases h with h | h | h
          · exact List.mem_of_mem_take (mem_restartBatch_deleteCall _ _ _ _ h)
          · cases h
          · have hpoll := waitLoop_events_healthPoll clusterAt _ fuel 0 _ (by
              rw [waitForPodsHealthy,
                if_neg (by simp [h1, List.isEmpty_eq_true])] at h
              exact h)
            cases hpoll
        | ok u =>
          simp only [rollingRestart, hp, Bool.false_eq_true, if_false, h1, h2,
            hw, List.mem_append, List.mem_cons] at h
          rcases h with h | h | h
          · exact List.mem_of_mem_take (mem_restartBatch_deleteCall _ _ _ _ h)
          · cases h
          · rcases h with h | h
            · have hpoll := waitLoop_events_healthPoll clusterAt _ fuel 0 _ (by
                rw [waitForPodsHealthy,
                  if_neg (by simp [h1, List.isEmpty_eq_true])] at h
                exact h)
              cases hpoll
            · exact List.mem_of_mem_drop (mem_restartBatch_deleteCall _ _ _ _ h)

/-- C10: every delete call of a campaign stays in the namespace of the
changed ConfigMap: candidate pods are listed only within the source's
namespace (`findPodsUsingConfigMap` filters `InNamespace`), and every
delete call issued by `rollingRestart` targets a member of that candidate
list, so a pod of a different namespace — even one referencing a
same-named ConfigMap — is never deleted. -/
theorem campaign_frame_namespace (cluster : List Pod)
    (cmNamespace cmName : String) (excludePatterns : List (String → Bool))
    (deleteOk : Pod → Bool) (clusterAt : Nat → List Pod) (fuel : Nat)
    (pdbs : List PDB) :
    (∀ p ∈ findPodsUsingConfigMap cluster cmNamespace cmName excludePatterns,
      p.nspace = cmNamespace) ∧
    (∀ p : Pod,
      Event.deleteCall p ∈
        (rollingRestart deleteOk clusterAt fuel
          (findPodsUsingConfigMap cluster cmNamespace cmName excludePatterns)
          pdbs).2 →
      p.nspace = cmNamespace) := by
  have hns : ∀ p ∈ findPodsUsingConfigMap cluster cmNamespace cmName
      excludePatterns, p.nspace = cmNamespace := by
    intro p hp
    have h1 := List.mem_of_mem_filter hp
    exact beq_iff_eq.mp (List.mem_filter.mp h1).2
  exact ⟨hns, fun p hp =>
    hns p (mem_rollingRestart_deleteCall _ _ _ _ _ _ hp)⟩


theorem campaign_frame_namespace_witness :
    ({ mkPod "web-1" "prod" with
        volumes := [⟨some ⟨"app-config"⟩, none⟩] } : Pod) ∈
      findPodsUsingConfigMap
        [{ mkPod "web-1" "prod" with
            volumes := [⟨some ⟨"app-config"⟩, none⟩] },
         { mkPod "web-2" "dev" with
            volumes := [⟨some ⟨"app-config"⟩, none⟩] }]
        "prod" "app-config" [] ∧
    ({ mkPod "web-1" "prod" with
        volumes := [⟨some ⟨"app-config"⟩, none⟩] } : Pod).nspace = "prod" := by
  refine ⟨by decide, ?_⟩
  exact (campaign_frame_namespace
    [{ mkPod "web-1" "prod" with volumes := [⟨some ⟨"app-config"⟩, none⟩] },
     { mkPod "web-2" "dev" with volumes := [⟨some ⟨"app-config"⟩, none⟩] }]
    "prod" "app-config" [] (fun _ => true) (fun _ => []) 1 []).1 _ (by decide)

